import Mathlib

/-!
# Verification of tiley (src/lib.rs)

Shallow embedding of the tiley rendering library and proofs about its
coordinate-mapping and blitting pipeline.

Modelling conventions:
* `Vec<u32>` buffers are modelled as total functions `ℕ → ℕ` from flat index to
  packed color value; an in-place write `buffer[i] = c` becomes a functional
  update.  All claims are about pixel values at flat indices `x + y * width`,
  exactly as the source indexes its buffer.
* `usize` becomes `ℕ`.  Rust release-mode `usize` subtraction appears in the
  source only in places where the claims' hypotheses keep it from underflowing;
  `ℕ` truncated subtraction is used and every theorem that depends on a
  subtraction also establishes that the minuend is large enough.
* `f64` values (`pixel_size` and the ratio comparisons in `PixelGrid::new`) are
  modelled as exact rationals `ℚ`.  On every concrete input appearing in a
  theorem below the corresponding `f64` computations are exact (small integers
  and exactly representable quotients), and the scale-generic theorems quantify
  over the scale value, so they hold for the value the `f64` computation
  produces as well.  The cast `as usize` applied to a nonnegative float
  truncates toward zero, i.e. it is `Int.floor` followed by `Int.toNat`.
* Rust panics (`expect`, violated `debug_assert!`) have no return value; where
  a claim is about the panic itself (`SpriteSheet::new`), the function is
  modelled with an `Except String` result whose `error` constructor marks the
  panic together with its panic message.
* `for x in a..=b` loops become `List.foldl` over `List.range' a (b + 1 - a)`,
  and `for x in 0..n` loops become `List.foldl` over `List.range n`, preserving
  iteration order.
-/

/-- `u32::from_be_bytes [b0, b1, b2, b3]`: big-endian packing of four bytes. -/
def u32FromBeBytes (b0 b1 b2 b3 : ℕ) : ℕ :=
  ((b0 * 256 + b1) * 256 + b2) * 256 + b3

/-- Embedding of `Bitmap`: the flat row-major pixel buffer with its
dimensions.  The `Vec<u32>` is modelled as a total function from flat index to
pixel value. -/
structure Bitmap where
  buffer : ℕ → ℕ
  width : ℕ
  height : ℕ

/-- Embedding of `Bitmap::draw_pixel`: `self.buffer[x + y * self.width] = color`. -/
def Bitmap.draw_pixel (b : Bitmap) (p : ℕ × ℕ) (color : ℕ) : Bitmap :=
  { b with buffer := fun i => if i = p.1 + p.2 * b.width then color else b.buffer i }

/-- Embedding of `Bitmap::draw_rectangle_pixels`: writes `color` to every pixel
of the inclusive box `[x1, x2] × [y1, y2]`, iterating `for x in x1..=x2 { for y
in y1..=y2 { draw_pixel } }`. -/
def Bitmap.draw_rectangle_pixels (b : Bitmap) (p1 p2 : ℕ × ℕ) (color : ℕ) : Bitmap :=
  (List.range' p1.1 (p2.1 + 1 - p1.1)).foldl
    (fun b0 x =>
      (List.range' p1.2 (p2.2 + 1 - p1.2)).foldl
        (fun b1 y => b1.draw_pixel (x, y) color) b0)
    b

/-- Embedding of `ClampType`. -/
inductive ClampType where
  | Height
  | Width
deriving DecidableEq

/-- Embedding of `PixelGrid`.  `pixel_size` is an `f64` in the source, modelled
as an exact rational (see the module docstring). -/
structure PixelGrid where
  bitmap : Bitmap
  width : ℕ
  height : ℕ
  pixel_size : ℚ
  clamped_by : ClampType
  pixel_offset : ℕ

/-- The cast `as usize` applied to the nonnegative float `s * n`: truncation
toward zero, i.e. floor. -/
def flr (s : ℚ) (n : ℕ) : ℕ := (Int.floor (s * n)).toNat

/-- Embedding of `PixelGrid::new`: chooses the clamp axis by comparing the two
width/height ratios, takes the clamped axis's ratio as `pixel_size`, and halves
the leftover of the other axis into `pixel_offset`. -/
def PixelGrid.new (bitmap : Bitmap) (width height : ℕ) : PixelGrid :=
  let clamped_by :=
    if (bitmap.width : ℚ) / (width : ℚ) < (bitmap.height : ℚ) / (height : ℚ) then
      ClampType.Width
    else
      ClampType.Height
  let pixel_size :=
    match clamped_by with
    | ClampType.Height => (bitmap.height : ℚ) / (height : ℚ)
    | ClampType.Width => (bitmap.width : ℚ) / (width : ℚ)
  let pixel_offset :=
    (match clamped_by with
      | ClampType.Height => bitmap.width - flr pixel_size width
      | ClampType.Width => bitmap.height - flr pixel_size height) / 2
  { bitmap := bitmap, width := width, height := height,
    clamped_by := clamped_by, pixel_size := pixel_size, pixel_offset := pixel_offset }

/-- The buffer rectangle computed by `PixelGrid::draw_virtual_pixel` for the
logical cell `(x, y)`: corners `(x1, y1)` and `(x2, y2)` after the floor
computations and the clamp offset, returned as `((x1, y1), (x2, y2))`.
The `- 1` is a `usize` subtraction in the source (wrapping in release mode,
panicking in debug mode when the floor is 0); the `ℕ` model truncates instead,
so it is faithful only when the minuend `flr s (x + 1)` is at least 1, which
holds whenever `pixel_size ≥ 1`.  Every theorem below that touches this
subtraction establishes that bound (`Lw ≤ width`, `Lh ≤ height` and positive
logical dimensions give `pixel_size ≥ 1` at construction). -/
def PixelGrid.vp_rect (g : PixelGrid) (x y : ℕ) : (ℕ × ℕ) × (ℕ × ℕ) :=
  let x1 := flr g.pixel_size x
  let y1 := flr g.pixel_size y
  let x2 := flr g.pixel_size (x + 1) - 1
  let y2 := flr g.pixel_size (y + 1) - 1
  let d : ℕ × ℕ :=
    match g.clamped_by with
    | ClampType.Height => (g.pixel_offset, 0)
    | ClampType.Width => (0, g.pixel_offset)
  ((x1 + d.1, y1 + d.2), (x2 + d.1, y2 + d.2))

/-- Embedding of `PixelGrid::draw_virtual_pixel`: computes the cell's buffer
rectangle and delegates to `Bitmap::draw_rectangle_pixels`. -/
def PixelGrid.draw_virtual_pixel (g : PixelGrid) (p : ℕ × ℕ) (color : ℕ) : PixelGrid :=
  { g with
    bitmap := g.bitmap.draw_rectangle_pixels (g.vp_rect p.1 p.2).1 (g.vp_rect p.1 p.2).2 color }

/-- A decoded RGB image (the `image` crate's `RgbImage` / `SubImage`): pixel
access by coordinates, each pixel an RGB triple of bytes. -/
structure RgbImg where
  width : ℕ
  height : ℕ
  pixel : ℕ → ℕ → ℕ × ℕ × ℕ

/-- `GenericImageView::view`: the sub-image of extent `w × h` whose pixel
`(dx, dy)` is the parent's pixel `(x + dx, y + dy)`. -/
def RgbImg.view (img : RgbImg) (x y w h : ℕ) : RgbImg :=
  { width := w, height := h, pixel := fun dx dy => img.pixel (x + dx) (y + dy) }

/-- The packed color `draw_image` builds for an image pixel:
`u32::from_be_bytes([0, r, g, b])`. -/
def imgColor (image : RgbImg) (a : ℕ × ℕ) : ℕ :=
  u32FromBeBytes 0 (image.pixel a.1 a.2).1 (image.pixel a.1 a.2).2.1 (image.pixel a.1 a.2).2.2

/-- Embedding of `PixelGrid::draw_image`: for every image pixel `(dx, dy)`,
packs its color and draws it as the virtual pixel `(x + dx, y + dy)`. -/
def PixelGrid.draw_image (g : PixelGrid) (p : ℕ × ℕ) (image : RgbImg) : PixelGrid :=
  (List.range image.width).foldl
    (fun g0 dx =>
      (List.range image.height).foldl
        (fun g1 dy => g1.draw_virtual_pixel (p.1 + dx, p.2 + dy) (imgColor image (dx, dy)))
        g0)
    g

/-- Embedding of `SpriteSheet`. -/
structure SpriteSheet where
  image : RgbImg
  sprite_size : ℕ
  id_to_coords : ℕ → ℕ × ℕ

/-- Embedding of `linear_translation`: the default id-to-coordinates mapping,
`id ↦ (id, 0)`. -/
def linear_translation (sprite_id : ℕ) : ℕ × ℕ := (sprite_id, 0)

/-- Embedding of `SpriteSheet::new`.  The source runs
`ImageReader::open(path).expect("error opening the image").decode().expect("error decoding the image")`.
`openResult` stands for the result of the external `ImageReader::open` and
`decode` for the external decoding step; `Except.error msg` models a Rust
panic raised by `.expect` carrying the panic message `msg` — the Rust
function's own return type (`Self`) has no error channel. -/
def SpriteSheet.new (openResult : Except String ℕ) (decode : ℕ → Except String RgbImg)
    (sprite_size : ℕ) : Except String SpriteSheet :=
  match openResult with
  | Except.error _ => Except.error "error opening the image"
  | Except.ok reader =>
    match decode reader with
    | Except.error _ => Except.error "error decoding the image"
    | Except.ok image =>
      Except.ok { image := image, id_to_coords := linear_translation, sprite_size := sprite_size }

/-- Embedding of `SpriteSheet::sprite`: cuts the `sprite_size × sprite_size`
view at `(sprite_x * sprite_size, sprite_y * sprite_size)` out of the sheet. -/
def SpriteSheet.sprite (s : SpriteSheet) (sprite_id : ℕ) : RgbImg :=
  let c := s.id_to_coords sprite_id
  s.image.view (c.1 * s.sprite_size) (c.2 * s.sprite_size) s.sprite_size s.sprite_size

/-- Embedding of `TileGrid`. -/
structure TileGrid where
  pixel_grid : PixelGrid
  width : ℕ
  height : ℕ
  tile_size : ℕ
  sprite_sheet : SpriteSheet

/-- The success path of `TileGrid::new` (everything except the sprite-sheet
loading, which can panic): builds the pixel grid with logical dimensions
`width * tile_size × height * tile_size` and records the sheet. -/
def TileGrid.mk0 (bitmap : Bitmap) (width height tile_size : ℕ)
    (sprite_sheet : SpriteSheet) : TileGrid :=
  { pixel_grid := PixelGrid.new bitmap (width * tile_size) (height * tile_size),
    width := width, height := height, tile_size := tile_size, sprite_sheet := sprite_sheet }

/-- Embedding of `TileGrid::new`: builds the pixel grid and the sprite sheet
(whose loading may panic, propagated here as the `Except.error` panic marker,
with `sprite_size := tile_size`). -/
def TileGrid.new (bitmap : Bitmap) (width height tile_size : ℕ)
    (openResult : Except String ℕ) (decode : ℕ → Except String RgbImg) :
    Except String TileGrid :=
  match SpriteSheet.new openResult decode tile_size with
  | Except.error e => Except.error e
  | Except.ok sprite_sheet => Except.ok (TileGrid.mk0 bitmap width height tile_size sprite_sheet)

/-- Embedding of `TileGrid::draw_tile`: cuts the sprite out of the sheet,
converts tile coordinates to virtual-pixel coordinates, and draws the sprite
image there. -/
def TileGrid.draw_tile (g : TileGrid) (t : ℕ × ℕ) (sprite_id : ℕ) : TileGrid :=
  let sprite := g.sprite_sheet.sprite sprite_id
  { g with
    pixel_grid := g.pixel_grid.draw_image (t.1 * g.tile_size, t.2 * g.tile_size) sprite }

/-- The set of flat buffer indices covered by the rectangle `r = ((x1,y1),(x2,y2))`
in a buffer of width `w`: some pixel `(x, y)` of the inclusive box has flat
index `i = x + y * w`. -/
def inRectIdx (r : (ℕ × ℕ) × (ℕ × ℕ)) (w i : ℕ) : Prop :=
  ∃ x ∈ Finset.Icc r.1.1 r.2.1, ∃ y ∈ Finset.Icc r.1.2 r.2.2, i = x + y * w

instance (r : (ℕ × ℕ) × (ℕ × ℕ)) (w i : ℕ) : Decidable (inRectIdx r w i) := by
  unfold inRectIdx; infer_instance

/-! ## Generic machinery for sequences of draw steps

Each drawing loop of the source is a `List.foldl` of steps over a state.  Every
step touches a set of flat buffer indices and writes a value there that depends
only on the step (never on the current buffer contents).  The lemmas below
characterise such folds pointwise: untouched indices keep their value, and an
index touched by exactly one step (or by several steps all writing the same
value) ends with the written value. -/

/-- Fold a list of draw steps over a state. -/
def applySteps {σ α : Type} (F : σ → α → σ) (l : List α) (s : σ) : σ := l.foldl F s

theorem applySteps_cons {σ α : Type} (F : σ → α → σ) (a : α) (l : List α) (s : σ) :
    applySteps F (a :: l) s = applySteps F l (F s a) := rfl

theorem applySteps_inv {σ α : Type} (F : σ → α → σ) (inv : σ → Prop)
    (hinv : ∀ s a, inv s → inv (F s a)) :
    ∀ (l : List α) (s : σ), inv s → inv (applySteps F l s) := by
  intro l
  induction l with
  | nil => intro s hs; exact hs
  | cons a l ih => intro s hs; exact ih (F s a) (hinv s a hs)

theorem applySteps_frame {σ α : Type} (F : σ → α → σ) (proj : σ → ℕ) (inv : σ → Prop)
    (T : α → Prop)
    (hinv : ∀ s a, inv s → inv (F s a))
    (hfr : ∀ s a, inv s → ¬ T a → proj (F s a) = proj s) :
    ∀ (l : List α) (s : σ), inv s → (∀ a ∈ l, ¬ T a) → proj (applySteps F l s) = proj s := by
  intro l
  induction l with
  | nil => intro s _ _; rfl
  | cons a l ih =>
    intro s hs hl
    have ha : ¬ T a := hl a (List.mem_cons_self a l)
    rw [applySteps_cons, ih (F s a) (hinv s a hs) fun b hb => hl b (List.mem_cons_of_mem a hb)]
    exact hfr s a hs ha

theorem applySteps_value_const {σ α : Type} (F : σ → α → σ) (proj : σ → ℕ) (inv : σ → Prop)
    (T : α → Prop) (c : ℕ)
    (hinv : ∀ s a, inv s → inv (F s a))
    (hfr : ∀ s a, inv s → ¬ T a → proj (F s a) = proj s)
    (hval : ∀ s a, inv s → T a → proj (F s a) = c) :
    ∀ (l : List α) (s : σ), inv s → (∃ a ∈ l, T a) → proj (applySteps F l s) = c := by
  intro l
  induction l with
  | nil => intro s _ h; simp at h
  | cons a l ih =>
    intro s hs hex
    rw [applySteps_cons]
    by_cases h : ∃ b ∈ l, T b
    · exact ih (F s a) (hinv s a hs) h
    · push_neg at h
      have haT : T a := by
        rcases hex with ⟨b, hb, hTb⟩
        rcases List.mem_cons.mp hb with hb | hb
        · exact hb ▸ hTb
        · exact absurd hTb (h b hb)
      rw [applySteps_frame F proj inv T hinv hfr l (F s a) (hinv s a hs) h]
      exact hval s a hs haT

theorem applySteps_value_uniq {σ α : Type} (F : σ → α → σ) (proj : σ → ℕ) (inv : σ → Prop)
    (T : α → Prop) (C : α → ℕ) (a0 : α)
    (hinv : ∀ s a, inv s → inv (F s a))
    (hfr : ∀ s a, inv s → ¬ T a → proj (F s a) = proj s)
    (hval : ∀ s a, inv s → T a → proj (F s a) = C a) :
    ∀ (l : List α) (s : σ), inv s → a0 ∈ l → T a0 → (∀ a ∈ l, T a → a = a0) →
      proj (applySteps F l s) = C a0 := by
  intro l
  induction l with
  | nil => intro s _ h; simp at h
  | cons a l ih =>
    intro s hs hmem hT huniq
    rw [applySteps_cons]
    by_cases h : ∃ b ∈ l, T b
    · rcases h with ⟨b, hb, hTb⟩
      have hb0 : b = a0 := huniq b (List.mem_cons_of_mem a hb) hTb
      subst hb0
      exact ih (F s a) (hinv s a hs) hb hT fun b' hb' hTb' =>
        huniq b' (List.mem_cons_of_mem a hb') hTb'
    · push_neg at h
      have ha : a = a0 := by
        rcases List.mem_cons.mp hmem with h0 | h0
        · exact h0.symm
        · exact absurd hT (h a0 h0)
      subst ha
      rw [applySteps_frame F proj inv T hinv hfr l (F s a) (hinv s a hs) h]
      exact hval s a hs hT

/-- The list of coordinate pairs visited by a doubly nested loop, outer loop
over `l1`, inner over `l2`, in iteration order. -/
def pairList (l1 l2 : List ℕ) : List (ℕ × ℕ) :=
  l1.flatMap fun a => l2.map fun b => (a, b)

theorem foldl_pairList {σ : Type} (F : σ → ℕ × ℕ → σ) (l1 l2 : List ℕ) (s : σ) :
    applySteps F (pairList l1 l2) s
      = l1.foldl (fun s0 a => l2.foldl (fun s1 b => F s1 (a, b)) s0) s := by
  induction l1 generalizing s with
  | nil => rfl
  | cons a l ih =>
    rw [pairList, List.flatMap_cons, List.foldl_cons]
    show applySteps F ((l2.map fun b => (a, b)) ++ pairList l l2) s = _
    rw [applySteps, List.foldl_append, List.foldl_map]
    exact ih _

theorem mem_pairList {l1 l2 : List ℕ} {q : ℕ × ℕ} :
    q ∈ pairList l1 l2 ↔ q.1 ∈ l1 ∧ q.2 ∈ l2 := by
  cases q with
  | mk a b =>
    simp only [pairList, List.mem_flatMap, List.mem_map, Prod.mk.injEq]
    constructor
    · rintro ⟨x, hx, y, hy, rfl, rfl⟩; exact ⟨hx, hy⟩
    · rintro ⟨ha, hb⟩; exact ⟨a, ha, b, hb, rfl, rfl⟩

theorem mem_rect_pairList {p1 p2 : ℕ × ℕ} {q : ℕ × ℕ} :
    q ∈ pairList (List.range' p1.1 (p2.1 + 1 - p1.1)) (List.range' p1.2 (p2.2 + 1 - p1.2))
      ↔ (p1.1 ≤ q.1 ∧ q.1 ≤ p2.1) ∧ (p1.2 ≤ q.2 ∧ q.2 ≤ p2.2) := by
  rw [mem_pairList, List.mem_range'_1, List.mem_range'_1]
  omega

theorem inRectIdx_iff {r : (ℕ × ℕ) × (ℕ × ℕ)} {w i : ℕ} :
    inRectIdx r w i
      ↔ ∃ q : ℕ × ℕ,
          ((r.1.1 ≤ q.1 ∧ q.1 ≤ r.2.1) ∧ (r.1.2 ≤ q.2 ∧ q.2 ≤ r.2.2)) ∧ i = q.1 + q.2 * w := by
  unfold inRectIdx
  constructor
  · rintro ⟨x, hx, y, hy, hi⟩
    rw [Finset.mem_Icc] at hx hy
    exact ⟨(x, y), ⟨hx, hy⟩, hi⟩
  · rintro ⟨⟨x, y⟩, ⟨hx, hy⟩, hi⟩
    exact ⟨x, Finset.mem_Icc.mpr hx, y, Finset.mem_Icc.mpr hy, hi⟩

/-! ## Pointwise characterisation of `draw_rectangle_pixels` -/

theorem Bitmap.draw_rectangle_eq (b : Bitmap) (p1 p2 : ℕ × ℕ) (c : ℕ) :
    b.draw_rectangle_pixels p1 p2 c
      = applySteps (fun b0 q => b0.draw_pixel q c)
          (pairList (List.range' p1.1 (p2.1 + 1 - p1.1)) (List.range' p1.2 (p2.2 + 1 - p1.2)))
          b := by
  rw [foldl_pairList]
  rfl

theorem Bitmap.draw_rectangle_dims (b : Bitmap) (p1 p2 : ℕ × ℕ) (c : ℕ) :
    (b.draw_rectangle_pixels p1 p2 c).width = b.width
      ∧ (b.draw_rectangle_pixels p1 p2 c).height = b.height := by
  rw [Bitmap.draw_rectangle_eq]
  exact applySteps_inv (fun b0 q => b0.draw_pixel q c)
    (fun b0 => b0.width = b.width ∧ b0.height = b.height)
    (fun s a hs => hs) _ b ⟨rfl, rfl⟩

theorem Bitmap.draw_rectangle_apply (b : Bitmap) (p1 p2 : ℕ × ℕ) (c i : ℕ) :
    (b.draw_rectangle_pixels p1 p2 c).buffer i
      = if inRectIdx (p1, p2) b.width i then c else b.buffer i := by
  rw [Bitmap.draw_rectangle_eq]
  by_cases h : inRectIdx (p1, p2) b.width i
  · rw [if_pos h]
    rcases inRectIdx_iff.mp h with ⟨q, hq, hi⟩
    refine applySteps_value_const (fun b0 q => b0.draw_pixel q c) (fun b0 => b0.buffer i)
      (fun b0 => b0.width = b.width) (fun q => i = q.1 + q.2 * b.width) c
      (fun s a hs => hs) ?_ ?_ _ b rfl ⟨q, mem_rect_pairList.mpr hq, hi⟩
    · intro s a hs hT
      simp only [Bitmap.draw_pixel, hs]
      exact if_neg hT
    · intro s a hs hT
      simp only [Bitmap.draw_pixel, hs]
      exact if_pos hT
  · rw [if_neg h]
    refine applySteps_frame (fun b0 q => b0.draw_pixel q c) (fun b0 => b0.buffer i)
      (fun b0 => b0.width = b.width) (fun q => i = q.1 + q.2 * b.width)
      (fun s a hs => hs) ?_ _ b rfl ?_
    · intro s a hs hT
      simp only [Bitmap.draw_pixel, hs]
      exact if_neg hT
    · intro a ha hT
      exact h (inRectIdx_iff.mpr ⟨a, mem_rect_pairList.mp ha, hT⟩)

/-! ## Pointwise characterisation of `draw_virtual_pixel` and `draw_image` -/

/-- The layout data of a `PixelGrid` that the drawing operations never change:
everything except the buffer contents. -/
def PixelGrid.sameLayout (g0 g : PixelGrid) : Prop :=
  g.pixel_size = g0.pixel_size ∧ g.clamped_by = g0.clamped_by
    ∧ g.pixel_offset = g0.pixel_offset ∧ g.bitmap.width = g0.bitmap.width
    ∧ g.bitmap.height = g0.bitmap.height ∧ g.width = g0.width ∧ g.height = g0.height

theorem PixelGrid.sameLayout_refl (g : PixelGrid) : PixelGrid.sameLayout g g :=
  ⟨rfl, rfl, rfl, rfl, rfl, rfl, rfl⟩

theorem PixelGrid.vp_rect_congr {g1 g2 : PixelGrid} (h1 : g1.pixel_size = g2.pixel_size)
    (h2 : g1.clamped_by = g2.clamped_by) (h3 : g1.pixel_offset = g2.pixel_offset)
    (x y : ℕ) : g1.vp_rect x y = g2.vp_rect x y := by
  unfold PixelGrid.vp_rect
  rw [h1, h2, h3]

theorem PixelGrid.draw_virtual_pixel_layout (g0 g : PixelGrid) (p : ℕ × ℕ) (c : ℕ)
    (h : PixelGrid.sameLayout g0 g) : PixelGrid.sameLayout g0 (g.draw_virtual_pixel p c) := by
  obtain ⟨h1, h2, h3, h4, h5, h6, h7⟩ := h
  exact ⟨h1, h2, h3,
    ((g.bitmap.draw_rectangle_dims _ _ c).1).trans h4,
    ((g.bitmap.draw_rectangle_dims _ _ c).2).trans h5, h6, h7⟩

theorem PixelGrid.draw_virtual_pixel_apply (g : PixelGrid) (p : ℕ × ℕ) (c i : ℕ) :
    (g.draw_virtual_pixel p c).bitmap.buffer i
      = if inRectIdx (g.vp_rect p.1 p.2) g.bitmap.width i then c else g.bitmap.buffer i := by
  show (g.bitmap.draw_rectangle_pixels (g.vp_rect p.1 p.2).1 (g.vp_rect p.1 p.2).2 c).buffer i = _
  rw [Bitmap.draw_rectangle_apply]

theorem PixelGrid.draw_image_eq (g : PixelGrid) (p : ℕ × ℕ) (image : RgbImg) :
    g.draw_image p image
      = applySteps (fun g1 a => g1.draw_virtual_pixel (p.1 + a.1, p.2 + a.2) (imgColor image a))
          (pairList (List.range image.width) (List.range image.height)) g := by
  rw [foldl_pairList]
  rfl

theorem mem_range_pairList {n m : ℕ} {q : ℕ × ℕ} :
    q ∈ pairList (List.range n) (List.range m) ↔ q.1 < n ∧ q.2 < m := by
  rw [mem_pairList, List.mem_range, List.mem_range]

theorem PixelGrid.draw_image_layout (g : PixelGrid) (p : ℕ × ℕ) (image : RgbImg) :
    PixelGrid.sameLayout g (g.draw_image p image) := by
  rw [PixelGrid.draw_image_eq]
  exact applySteps_inv _ (PixelGrid.sameLayout g)
    (fun s a hs => PixelGrid.draw_virtual_pixel_layout g s _ _ hs) _ g
    (PixelGrid.sameLayout_refl g)

theorem PixelGrid.draw_image_frame (g : PixelGrid) (p : ℕ × ℕ) (image : RgbImg) (i : ℕ)
    (h : ∀ a : ℕ × ℕ, a.1 < image.width → a.2 < image.height →
      ¬ inRectIdx (g.vp_rect (p.1 + a.1) (p.2 + a.2)) g.bitmap.width i) :
    (g.draw_image p image).bitmap.buffer i = g.bitmap.buffer i := by
  rw [PixelGrid.draw_image_eq]
  refine applySteps_frame
    (fun g1 a => g1.draw_virtual_pixel (p.1 + a.1, p.2 + a.2) (imgColor image a))
    (fun g1 => g1.bitmap.buffer i) (PixelGrid.sameLayout g)
    (fun a => inRectIdx (g.vp_rect (p.1 + a.1) (p.2 + a.2)) g.bitmap.width i)
    (fun s a hs => PixelGrid.draw_virtual_pixel_layout g s _ _ hs) ?_ _ g
    (PixelGrid.sameLayout_refl g) ?_
  · intro s a hs hT
    dsimp only
    rw [PixelGrid.draw_virtual_pixel_apply]
    rw [PixelGrid.vp_rect_congr hs.1 hs.2.1 hs.2.2.1, hs.2.2.2.1]
    exact if_neg hT
  · intro a ha
    rcases mem_range_pairList.mp ha with ⟨h1, h2⟩
    exact h a h1 h2

theorem PixelGrid.draw_image_value (g : PixelGrid) (p : ℕ × ℕ) (image : RgbImg)
    (a0 : ℕ × ℕ) (i : ℕ) (h1 : a0.1 < image.width) (h2 : a0.2 < image.height)
    (hT : inRectIdx (g.vp_rect (p.1 + a0.1) (p.2 + a0.2)) g.bitmap.width i)
    (huniq : ∀ a : ℕ × ℕ, a.1 < image.width → a.2 < image.height →
      inRectIdx (g.vp_rect (p.1 + a.1) (p.2 + a.2)) g.bitmap.width i → a = a0) :
    (g.draw_image p image).bitmap.buffer i = imgColor image a0 := by
  rw [PixelGrid.draw_image_eq]
  refine applySteps_value_uniq
    (fun g1 a => g1.draw_virtual_pixel (p.1 + a.1, p.2 + a.2) (imgColor image a))
    (fun g1 => g1.bitmap.buffer i) (PixelGrid.sameLayout g)
    (fun a => inRectIdx (g.vp_rect (p.1 + a.1) (p.2 + a.2)) g.bitmap.width i)
    (imgColor image) a0
    (fun s a hs => PixelGrid.draw_virtual_pixel_layout g s _ _ hs) ?_ ?_ _ g
    (PixelGrid.sameLayout_refl g) (mem_range_pairList.mpr ⟨h1, h2⟩) hT ?_
  · intro s a hs hTa
    dsimp only
    rw [PixelGrid.draw_virtual_pixel_apply]
    rw [PixelGrid.vp_rect_congr hs.1 hs.2.1 hs.2.2.1, hs.2.2.2.1]
    exact if_neg hTa
  · intro s a hs hTa
    dsimp only
    rw [PixelGrid.draw_virtual_pixel_apply]
    rw [PixelGrid.vp_rect_congr hs.1 hs.2.1 hs.2.2.1, hs.2.2.2.1]
    exact if_pos hTa
  · intro a ha hTa
    rcases mem_range_pairList.mp ha with ⟨ha1, ha2⟩
    exact huniq a ha1 ha2 hTa

/-! ## Arithmetic facts about the floor computation -/

theorem flr_mono (s : ℚ) (hs : 0 ≤ s) {m n : ℕ} (h : m ≤ n) : flr s m ≤ flr s n := by
  have h1 : s * (m : ℚ) ≤ s * (n : ℚ) :=
    mul_le_mul_of_nonneg_left (by exact_mod_cast h) hs
  have h2 := Int.floor_le_floor h1
  unfold flr
  omega

theorem flr_succ_ge (s : ℚ) (c : ℕ) (hs : (c : ℚ) ≤ s) (n : ℕ) :
    flr s n + c ≤ flr s (n + 1) := by
  have h0 : (0 : ℚ) ≤ s := le_trans (by positivity) hs
  have h1 : (0 : ℤ) ≤ Int.floor (s * (n : ℚ)) := by
    rw [Int.floor_nonneg]
    positivity
  have h2 : Int.floor (s * (n : ℚ)) + (c : ℤ) ≤ Int.floor (s * ((n + 1 : ℕ) : ℚ)) := by
    rw [Int.le_floor]
    have h3 : ((Int.floor (s * (n : ℚ)) : ℚ)) ≤ s * n := Int.floor_le _
    push_cast
    nlinarith [h3, hs]
  unfold flr
  omega

theorem flr_le (s : ℚ) (hs : 0 ≤ s) {L D : ℕ} (h : s * (L : ℚ) ≤ (D : ℚ)) {n : ℕ}
    (hn : n ≤ L) : flr s n ≤ D := by
  have h1 : s * (n : ℚ) ≤ (D : ℚ) :=
    le_trans (mul_le_mul_of_nonneg_left (by exact_mod_cast hn) hs) h
  have h2 := Int.floor_le_floor h1
  rw [Int.floor_natCast] at h2
  unfold flr
  omega

theorem flr_pos (s : ℚ) (hs : 1 ≤ s) (n : ℕ) : 1 ≤ flr s (n + 1) := by
  have := flr_succ_ge s 1 (by exact_mod_cast hs) n
  omega

theorem flr_div_self (D L : ℕ) (hL : 0 < L) : flr ((D : ℚ) / (L : ℚ)) L = D := by
  have hL' : ((L : ℚ)) ≠ 0 := by positivity
  unfold flr
  rw [div_mul_cancel₀ _ hL', Int.floor_natCast]
  omega

theorem div_ge_of_mul_le {c D L : ℕ} (hL : 0 < L) (h : c * L ≤ D) :
    (c : ℚ) ≤ (D : ℚ) / (L : ℚ) := by
  rw [le_div_iff₀ (by exact_mod_cast hL)]
  exact_mod_cast h

theorem mul_le_of_ratio {s : ℚ} {D L : ℕ} (hL : 0 < L) (h : s ≤ (D : ℚ) / (L : ℚ)) :
    s * (L : ℚ) ≤ (D : ℚ) := by
  have hL' : (0 : ℚ) < (L : ℚ) := by exact_mod_cast hL
  calc s * (L : ℚ) ≤ ((D : ℚ) / (L : ℚ)) * (L : ℚ) :=
        mul_le_mul_of_nonneg_right h (le_of_lt hL')
    _ = (D : ℚ) := div_mul_cancel₀ _ (ne_of_gt hL')

/-! ## Structure of a freshly constructed `PixelGrid` -/

theorem PixelGrid.new_bitmap (bm : Bitmap) (Lw Lh : ℕ) :
    (PixelGrid.new bm Lw Lh).bitmap = bm := rfl

theorem PixelGrid.new_cases (bm : Bitmap) (Lw Lh : ℕ) :
    ((PixelGrid.new bm Lw Lh).clamped_by = ClampType.Height
        ∧ (PixelGrid.new bm Lw Lh).pixel_size = (bm.height : ℚ) / (Lh : ℚ)
        ∧ (PixelGrid.new bm Lw Lh).pixel_offset
            = (bm.width - flr (PixelGrid.new bm Lw Lh).pixel_size Lw) / 2
        ∧ (bm.height : ℚ) / (Lh : ℚ) ≤ (bm.width : ℚ) / (Lw : ℚ))
      ∨ ((PixelGrid.new bm Lw Lh).clamped_by = ClampType.Width
        ∧ (PixelGrid.new bm Lw Lh).pixel_size = (bm.width : ℚ) / (Lw : ℚ)
        ∧ (PixelGrid.new bm Lw Lh).pixel_offset
            = (bm.height - flr (PixelGrid.new bm Lw Lh).pixel_size Lh) / 2
        ∧ (bm.width : ℚ) / (Lw : ℚ) < (bm.height : ℚ) / (Lh : ℚ)) := by
  by_cases h : (bm.width : ℚ) / (Lw : ℚ) < (bm.height : ℚ) / (Lh : ℚ)
  · right
    simp only [PixelGrid.new, if_pos h]
    exact ⟨trivial, trivial, trivial, h⟩
  · left
    simp only [PixelGrid.new, if_neg h]
    exact ⟨trivial, trivial, trivial, not_lt.mp h⟩

theorem PixelGrid.new_struct (bm : Bitmap) (Lw Lh c : ℕ)
    (hLw : 0 < Lw) (hLh : 0 < Lh)
    (hcW : c * Lw ≤ bm.width) (hcH : c * Lh ≤ bm.height) :
    ∃ offX offY : ℕ,
      (∀ x y : ℕ, (PixelGrid.new bm Lw Lh).vp_rect x y
          = ((flr (PixelGrid.new bm Lw Lh).pixel_size x + offX,
              flr (PixelGrid.new bm Lw Lh).pixel_size y + offY),
             (flr (PixelGrid.new bm Lw Lh).pixel_size (x + 1) - 1 + offX,
              flr (PixelGrid.new bm Lw Lh).pixel_size (y + 1) - 1 + offY)))
      ∧ (c : ℚ) ≤ (PixelGrid.new bm Lw Lh).pixel_size
      ∧ (PixelGrid.new bm Lw Lh).pixel_size * (Lw : ℚ) ≤ (bm.width : ℚ)
      ∧ (PixelGrid.new bm Lw Lh).pixel_size * (Lh : ℚ) ≤ (bm.height : ℚ)
      ∧ offX ≤ (bm.width - flr (PixelGrid.new bm Lw Lh).pixel_size Lw) / 2
      ∧ offY ≤ (bm.height - flr (PixelGrid.new bm Lw Lh).pixel_size Lh) / 2 := by
  rcases PixelGrid.new_cases bm Lw Lh with ⟨hcl, hps, hpo, hratio⟩ | ⟨hcl, hps, hpo, hratio⟩
  · refine ⟨(PixelGrid.new bm Lw Lh).pixel_offset, 0, ?_, ?_, ?_, ?_, ?_, Nat.zero_le _⟩
    · intro x y
      unfold PixelGrid.vp_rect
      rw [hcl]
    · rw [hps]
      exact div_ge_of_mul_le hLh hcH
    · rw [hps]
      exact mul_le_of_ratio hLw hratio
    · rw [hps]
      have hL' : ((Lh : ℚ)) ≠ 0 := by positivity
      exact le_of_eq (div_mul_cancel₀ _ hL')
    · rw [hpo]
  · refine ⟨0, (PixelGrid.new bm Lw Lh).pixel_offset, ?_, ?_, ?_, ?_, Nat.zero_le _, ?_⟩
    · intro x y
      unfold PixelGrid.vp_rect
      rw [hcl]
    · rw [hps]
      exact div_ge_of_mul_le hLw hcW
    · rw [hps]
      have hL' : ((Lw : ℚ)) ≠ 0 := by positivity
      exact le_of_eq (div_mul_cancel₀ _ hL')
    · rw [hps]
      exact mul_le_of_ratio hLh (le_of_lt hratio)
    · rw [hpo]

/-! ## Geometry of virtual-pixel rectangles -/

theorem edge_lt {s : ℚ} {n L D off : ℕ} (hs : 1 ≤ s) (hn : n < L)
    (hD : s * (L : ℚ) ≤ (D : ℚ)) (hoff : off ≤ (D - flr s L) / 2) :
    flr s (n + 1) - 1 + off < D := by
  have h0 : (0 : ℚ) ≤ s := le_trans zero_le_one hs
  have hA : flr s (n + 1) ≤ flr s L := flr_mono s h0 hn
  have hB : flr s L ≤ D := flr_le s h0 hD le_rfl
  have h1 : 1 ≤ flr s (n + 1) := flr_pos s hs n
  omega

theorem idx_inj {a b a2 b2 W : ℕ} (hA : a < W) (hA2 : a2 < W)
    (h : a + b * W = a2 + b2 * W) : a = a2 ∧ b = b2 := by
  have hw : 0 < W := lt_of_le_of_lt (Nat.zero_le a) hA
  have h1 : a % W = a2 % W := by
    have h2 := congrArg (fun t => t % W) h
    simpa [Nat.add_mul_mod_self_right] using h2
  rw [Nat.mod_eq_of_lt hA, Nat.mod_eq_of_lt hA2] at h1
  subst h1
  refine ⟨rfl, ?_⟩
  exact Nat.eq_of_mul_eq_mul_right hw (Nat.add_left_cancel h)

theorem interval_sep {s : ℚ} (hs : 1 ≤ s) {u v off a b : ℕ} (huv : u < v)
    (ha : a ≤ flr s (u + 1) - 1 + off) (hb : flr s v + off ≤ b) : a < b := by
  have h0 : (0 : ℚ) ≤ s := le_trans zero_le_one hs
  have h1 : flr s (u + 1) ≤ flr s v := flr_mono s h0 huv
  have h2 : 1 ≤ flr s (u + 1) := flr_pos s hs u
  omega

theorem PixelGrid.new_vp_in_bounds (bm : Bitmap) (Lw Lh : ℕ) (hLw : 0 < Lw) (hLh : 0 < Lh)
    (hW : Lw ≤ bm.width) (hH : Lh ≤ bm.height) {x y : ℕ} (hx : x < Lw) (hy : y < Lh) :
    ((PixelGrid.new bm Lw Lh).vp_rect x y).2.1 < bm.width
      ∧ ((PixelGrid.new bm Lw Lh).vp_rect x y).2.2 < bm.height := by
  obtain ⟨offX, offY, hshape, hs1, hsW, hsH, hoX, hoY⟩ :=
    PixelGrid.new_struct bm Lw Lh 1 hLw hLh (by omega) (by omega)
  have hs1' : (1 : ℚ) ≤ (PixelGrid.new bm Lw Lh).pixel_size := by exact_mod_cast hs1
  rw [hshape x y]
  exact ⟨edge_lt hs1' hx hsW hoX, edge_lt hs1' hy hsH hoY⟩

theorem PixelGrid.new_cells_disjoint (bm : Bitmap) (Lw Lh : ℕ) (hLw : 0 < Lw) (hLh : 0 < Lh)
    (hW : Lw ≤ bm.width) (hH : Lh ≤ bm.height) {x y x2 y2 i : ℕ}
    (hx : x < Lw) (hy : y < Lh) (hx2 : x2 < Lw) (hy2 : y2 < Lh)
    (hne : ¬ (x = x2 ∧ y = y2))
    (h1 : inRectIdx ((PixelGrid.new bm Lw Lh).vp_rect x y) bm.width i)
    (h2 : inRectIdx ((PixelGrid.new bm Lw Lh).vp_rect x2 y2) bm.width i) : False := by
  obtain ⟨offX, offY, hshape, hs1, hsW, hsH, hoX, hoY⟩ :=
    PixelGrid.new_struct bm Lw Lh 1 hLw hLh (by omega) (by omega)
  have hs1' : (1 : ℚ) ≤ (PixelGrid.new bm Lw Lh).pixel_size := by exact_mod_cast hs1
  rcases inRectIdx_iff.mp h1 with ⟨q, ⟨⟨ha1, ha2⟩, hb1, hb2⟩, hqi⟩
  rcases inRectIdx_iff.mp h2 with ⟨q', ⟨⟨ha1', ha2'⟩, hb1', hb2'⟩, hqi'⟩
  rw [hshape x y] at ha1 ha2 hb1 hb2
  rw [hshape x2 y2] at ha1' ha2' hb1' hb2'
  dsimp only at ha1 ha2 hb1 hb2 ha1' ha2' hb1' hb2'
  have hq1W : q.1 < bm.width := lt_of_le_of_lt ha2 (edge_lt hs1' hx hsW hoX)
  have hq1W' : q'.1 < bm.width := lt_of_le_of_lt ha2' (edge_lt hs1' hx2 hsW hoX)
  have heq : q.1 = q'.1 ∧ q.2 = q'.2 := idx_inj hq1W hq1W' (hqi ▸ hqi')
  have hxy : x ≠ x2 ∨ y ≠ y2 := by tauto
  rcases hxy with hxx | hyy
  · rcases Nat.lt_or_ge x x2 with hlt | hge
    · exact absurd heq.1 (Nat.ne_of_lt (interval_sep hs1' hlt ha2 ha1'))
    · have hlt : x2 < x := lt_of_le_of_ne hge (Ne.symm hxx)
      exact absurd heq.1.symm (Nat.ne_of_lt (interval_sep hs1' hlt ha2' ha1))
  · rcases Nat.lt_or_ge y y2 with hlt | hge
    · exact absurd heq.2 (Nat.ne_of_lt (interval_sep hs1' hlt hb2 hb1'))
    · have hlt : y2 < y := lt_of_le_of_ne hge (Ne.symm hyy)
      exact absurd heq.2.symm (Nat.ne_of_lt (interval_sep hs1' hlt hb2' hb1))

/-! ## Claims C1 - C4 -/

/-- **C1.** For every `PixelGrid` constructed from a bitmap of width `W`,
height `H` and logical dimensions `Lw ≤ W`, `Lh ≤ H`, and every cell with
`x + 1 < Lw` and `y + 1 < Lh`, the right edge of the buffer rectangle that
`draw_virtual_pixel` computes for cell `x` equals the left edge of the
rectangle for cell `x + 1` minus one (and that left edge is positive, so the
subtraction is genuine), and likewise along the vertical axis: adjacent
virtual pixels neither overlap nor leave a gap. -/
theorem spec_C1 (buf : ℕ → ℕ) (W H Lw Lh x y : ℕ)
    (hW : Lw ≤ W) (hH : Lh ≤ H) (hx : x + 1 < Lw) (hy : y + 1 < Lh) :
    (((PixelGrid.new ⟨buf, W, H⟩ Lw Lh).vp_rect x y).2.1
        = ((PixelGrid.new ⟨buf, W, H⟩ Lw Lh).vp_rect (x + 1) y).1.1 - 1
      ∧ 0 < ((PixelGrid.new ⟨buf, W, H⟩ Lw Lh).vp_rect (x + 1) y).1.1)
    ∧ (((PixelGrid.new ⟨buf, W, H⟩ Lw Lh).vp_rect x y).2.2
        = ((PixelGrid.new ⟨buf, W, H⟩ Lw Lh).vp_rect x (y + 1)).1.2 - 1
      ∧ 0 < ((PixelGrid.new ⟨buf, W, H⟩ Lw Lh).vp_rect x (y + 1)).1.2) := by
  obtain ⟨offX, offY, hshape, hs1, hsW, hsH, hoX, hoY⟩ :=
    PixelGrid.new_struct ⟨buf, W, H⟩ Lw Lh 1 (by omega) (by omega)
      (show 1 * Lw ≤ W by omega) (show 1 * Lh ≤ H by omega)
  have hs1' : (1 : ℚ) ≤ (PixelGrid.new ⟨buf, W, H⟩ Lw Lh).pixel_size := by exact_mod_cast hs1
  have hpx : 1 ≤ flr (PixelGrid.new ⟨buf, W, H⟩ Lw Lh).pixel_size (x + 1) :=
    flr_pos _ hs1' x
  have hpy : 1 ≤ flr (PixelGrid.new ⟨buf, W, H⟩ Lw Lh).pixel_size (y + 1) :=
    flr_pos _ hs1' y
  rw [hshape x y, hshape (x + 1) y, hshape x (y + 1)]
  dsimp only
  exact ⟨⟨by omega, by omega⟩, ⟨by omega, by omega⟩⟩

/-- Witness for C1: the 600×200 buffer with a 20×10 logical grid, cells `(0, 0)`
versus `(1, 0)` and `(0, 1)`. -/
theorem spec_C1_witness :
    (20 ≤ 600 ∧ 10 ≤ 200 ∧ 0 + 1 < 20 ∧ 0 + 1 < 10)
    ∧ ((((PixelGrid.new ⟨fun _ => 0, 600, 200⟩ 20 10).vp_rect 0 0).2.1
          = ((PixelGrid.new ⟨fun _ => 0, 600, 200⟩ 20 10).vp_rect (0 + 1) 0).1.1 - 1
        ∧ 0 < ((PixelGrid.new ⟨fun _ => 0, 600, 200⟩ 20 10).vp_rect (0 + 1) 0).1.1)
      ∧ (((PixelGrid.new ⟨fun _ => 0, 600, 200⟩ 20 10).vp_rect 0 0).2.2
          = ((PixelGrid.new ⟨fun _ => 0, 600, 200⟩ 20 10).vp_rect 0 (0 + 1)).1.2 - 1
        ∧ 0 < ((PixelGrid.new ⟨fun _ => 0, 600, 200⟩ 20 10).vp_rect 0 (0 + 1)).1.2)) :=
  ⟨by omega,
    spec_C1 (fun _ => 0) 600 200 20 10 0 0 (by omega) (by omega) (by omega) (by omega)⟩

/-- **C2.** On a 600×200 buffer with a 20×10 logical grid, construction
height-clamps with scale 20 and centering offset 100, and `draw_virtual_pixel`
maps cell `(0,0)` to the rectangle `[100,119] × [0,19]` and cell `(19,9)` to
`[480,499] × [180,199]`.  (All the `f64` operations involved are exact on
these inputs.) -/
theorem spec_C2 :
    (PixelGrid.new ⟨fun _ => 0, 600, 200⟩ 20 10).clamped_by = ClampType.Height
    ∧ (PixelGrid.new ⟨fun _ => 0, 600, 200⟩ 20 10).pixel_size = 20
    ∧ (PixelGrid.new ⟨fun _ => 0, 600, 200⟩ 20 10).pixel_offset = 100
    ∧ (PixelGrid.new ⟨fun _ => 0, 600, 200⟩ 20 10).vp_rect 0 0 = ((100, 0), (119, 19))
    ∧ (PixelGrid.new ⟨fun _ => 0, 600, 200⟩ 20 10).vp_rect 19 9 = ((480, 180), (499, 199)) := by
  rcases PixelGrid.new_cases ⟨fun _ => 0, 600, 200⟩ 20 10 with
    ⟨hcl, hps, hpo, _⟩ | ⟨_, _, _, hr⟩
  · have hps20 : (PixelGrid.new ⟨fun _ => 0, 600, 200⟩ 20 10).pixel_size = 20 := by
      rw [hps]
      norm_num
    have hf0 : flr (PixelGrid.new ⟨fun _ => 0, 600, 200⟩ 20 10).pixel_size 0 = 0 := by
      rw [hps20]; unfold flr; norm_num
    have hf1 : flr (PixelGrid.new ⟨fun _ => 0, 600, 200⟩ 20 10).pixel_size 1 = 20 := by
      rw [hps20]; unfold flr; norm_num; try omega
    have hf9 : flr (PixelGrid.new ⟨fun _ => 0, 600, 200⟩ 20 10).pixel_size 9 = 180 := by
      rw [hps20]; unfold flr; norm_num; try omega
    have hf10 : flr (PixelGrid.new ⟨fun _ => 0, 600, 200⟩ 20 10).pixel_size 10 = 200 := by
      rw [hps20]; unfold flr; norm_num; try omega
    have hf19 : flr (PixelGrid.new ⟨fun _ => 0, 600, 200⟩ 20 10).pixel_size 19 = 380 := by
      rw [hps20]; unfold flr; norm_num; try omega
    have hf20 : flr (PixelGrid.new ⟨fun _ => 0, 600, 200⟩ 20 10).pixel_size 20 = 400 := by
      rw [hps20]; unfold flr; norm_num; try omega
    have hpo100 : (PixelGrid.new ⟨fun _ => 0, 600, 200⟩ 20 10).pixel_offset = 100 := by
      rw [hpo, hf20]
      rfl
    refine ⟨hcl, hps20, hpo100, ?_, ?_⟩
    · unfold PixelGrid.vp_rect
      rw [hcl]
      dsimp only
      rw [hf0, hf1, hpo100]
    · unfold PixelGrid.vp_rect
      rw [hcl]
      dsimp only
      rw [hf9, hf10, hf19, hf20, hpo100]
  · exfalso
    have hr2 : (600 : ℚ) / 20 < (200 : ℚ) / 10 := hr
    norm_num at hr2

/-- The centering-offset formula exactly as the spec words it: subtract the
(truncated) scaled logical extent from the buffer dimension, then halve,
truncating at each step. -/
def specCenteringOffset (D L : ℕ) (s : ℚ) : ℕ :=
  (D - (Int.floor (s * (L : ℚ))).toNat) / 2

/-- **C3.** For every `PixelGrid` construction, the centering offset equals
`floor((D - trunc(scale * L)) / 2)` where `D` is the buffer dimension and `L`
the logical dimension along the non-clamped axis (truncating conversion at
each intermediate step), and `draw_virtual_pixel` applies the offset only
along the axis not chosen as the clamp axis. -/
theorem spec_C3 (bm : Bitmap) (Lw Lh x y : ℕ) :
    (PixelGrid.new bm Lw Lh).pixel_offset
        = (match (PixelGrid.new bm Lw Lh).clamped_by with
            | ClampType.Height =>
                specCenteringOffset bm.width Lw (PixelGrid.new bm Lw Lh).pixel_size
            | ClampType.Width =>
                specCenteringOffset bm.height Lh (PixelGrid.new bm Lw Lh).pixel_size)
    ∧ (PixelGrid.new bm Lw Lh).vp_rect x y
        = (match (PixelGrid.new bm Lw Lh).clamped_by with
            | ClampType.Height =>
                ((flr (PixelGrid.new bm Lw Lh).pixel_size x + (PixelGrid.new bm Lw Lh).pixel_offset,
                  flr (PixelGrid.new bm Lw Lh).pixel_size y),
                 (flr (PixelGrid.new bm Lw Lh).pixel_size (x + 1) - 1
                    + (PixelGrid.new bm Lw Lh).pixel_offset,
                  flr (PixelGrid.new bm Lw Lh).pixel_size (y + 1) - 1))
            | ClampType.Width =>
                ((flr (PixelGrid.new bm Lw Lh).pixel_size x,
                  flr (PixelGrid.new bm Lw Lh).pixel_size y + (PixelGrid.new bm Lw Lh).pixel_offset),
                 (flr (PixelGrid.new bm Lw Lh).pixel_size (x + 1) - 1,
                  flr (PixelGrid.new bm Lw Lh).pixel_size (y + 1) - 1
                    + (PixelGrid.new bm Lw Lh).pixel_offset))) := by
  rcases PixelGrid.new_cases bm Lw Lh with ⟨hcl, hps, hpo, _⟩ | ⟨hcl, hps, hpo, _⟩ <;>
  · rw [hcl]
    refine ⟨hpo, ?_⟩
    unfold PixelGrid.vp_rect
    rw [hcl]
    rfl

/-- Counterexample to **C4** as stated: on a 1×1 buffer with a 1×1 logical
grid (logical dimensions do not exceed the buffer dimensions, and cell `(0,0)`
is in bounds) the computed rectangle is degenerate: its left edge equals its
right edge, so the precondition `top_left.x < bottom_right.x` of
`draw_rectangle_pixels` fails and the assertion is reachable. -/
theorem spec_C4_cex :
    1 ≤ 1 ∧ 1 ≤ 1 ∧ (0 : ℕ) < 1 ∧
    (PixelGrid.new ⟨fun _ => 0, 1, 1⟩ 1 1).vp_rect 0 0 = ((0, 0), (0, 0)) ∧
    ¬ (((PixelGrid.new ⟨fun _ => 0, 1, 1⟩ 1 1).vp_rect 0 0).1.1
        < ((PixelGrid.new ⟨fun _ => 0, 1, 1⟩ 1 1).vp_rect 0 0).2.1) := by
  rcases PixelGrid.new_cases ⟨fun _ => 0, 1, 1⟩ 1 1 with
    ⟨hcl, hps, hpo, _⟩ | ⟨_, _, _, hr⟩
  · have hps1 : (PixelGrid.new ⟨fun _ => 0, 1, 1⟩ 1 1).pixel_size = 1 := by
      rw [hps]; norm_num
    have hf0 : flr (PixelGrid.new ⟨fun _ => 0, 1, 1⟩ 1 1).pixel_size 0 = 0 := by
      rw [hps1]; unfold flr; norm_num
    have hf1 : flr (PixelGrid.new ⟨fun _ => 0, 1, 1⟩ 1 1).pixel_size 1 = 1 := by
      rw [hps1]; unfold flr; norm_num
    have hpo0 : (PixelGrid.new ⟨fun _ => 0, 1, 1⟩ 1 1).pixel_offset = 0 := by
      rw [hpo, hf1]
      rfl
    have hrect : (PixelGrid.new ⟨fun _ => 0, 1, 1⟩ 1 1).vp_rect 0 0 = ((0, 0), (0, 0)) := by
      unfold PixelGrid.vp_rect
      rw [hcl]
      dsimp only
      rw [hf0, hf1, hpo0]
    refine ⟨le_rfl, le_rfl, one_pos, hrect, ?_⟩
    rw [hrect]
    decide
  · exfalso
    have hr2 : (1 : ℚ) / 1 < (1 : ℚ) / 1 := hr
    norm_num at hr2

/-- **C4 (amended).** The claim holds once the buffer dimensions are at least
twice the logical dimensions (equivalently, the scale is at least 2 — the
counterexample shows that a scale below 2 produces a degenerate rectangle):
for every in-bounds cell the rectangle computed by `draw_virtual_pixel`
satisfies `draw_rectangle_pixels`' precondition: `x1 < x2`, `y1 < y2`, and
both corners strictly inside the buffer. -/
theorem spec_C4 (bm : Bitmap) (Lw Lh x y : ℕ)
    (h2W : 2 * Lw ≤ bm.width) (h2H : 2 * Lh ≤ bm.height) (hx : x < Lw) (hy : y < Lh) :
    ((PixelGrid.new bm Lw Lh).vp_rect x y).1.1 < ((PixelGrid.new bm Lw Lh).vp_rect x y).2.1
    ∧ ((PixelGrid.new bm Lw Lh).vp_rect x y).1.2 < ((PixelGrid.new bm Lw Lh).vp_rect x y).2.2
    ∧ ((PixelGrid.new bm Lw Lh).vp_rect x y).2.1 < bm.width
    ∧ ((PixelGrid.new bm Lw Lh).vp_rect x y).2.2 < bm.height := by
  obtain ⟨offX, offY, hshape, hs2, hsW, hsH, hoX, hoY⟩ :=
    PixelGrid.new_struct bm Lw Lh 2 (by omega) (by omega) h2W h2H
  have hs2' : (2 : ℚ) ≤ (PixelGrid.new bm Lw Lh).pixel_size := by exact_mod_cast hs2
  have hs1' : (1 : ℚ) ≤ (PixelGrid.new bm Lw Lh).pixel_size := le_trans one_le_two hs2'
  have hgx : flr (PixelGrid.new bm Lw Lh).pixel_size x + 2
      ≤ flr (PixelGrid.new bm Lw Lh).pixel_size (x + 1) := flr_succ_ge _ 2 (by exact_mod_cast hs2) x
  have hgy : flr (PixelGrid.new bm Lw Lh).pixel_size y + 2
      ≤ flr (PixelGrid.new bm Lw Lh).pixel_size (y + 1) := flr_succ_ge _ 2 (by exact_mod_cast hs2) y
  have hbx := edge_lt hs1' hx hsW hoX
  have hby := edge_lt hs1' hy hsH hoY
  rw [hshape x y]
  dsimp only
  exact ⟨by omega, by omega, hbx, hby⟩

/-- Witness for the amended C4: the 600×200 buffer with a 20×10 logical grid
(scale 20 ≥ 2) at the extreme in-bounds cell `(19, 9)`. -/
theorem spec_C4_witness :
    (2 * 20 ≤ 600 ∧ 2 * 10 ≤ 200 ∧ 19 < 20 ∧ 9 < 10)
    ∧ (((PixelGrid.new ⟨fun _ => 0, 600, 200⟩ 20 10).vp_rect 19 9).1.1
          < ((PixelGrid.new ⟨fun _ => 0, 600, 200⟩ 20 10).vp_rect 19 9).2.1
      ∧ ((PixelGrid.new ⟨fun _ => 0, 600, 200⟩ 20 10).vp_rect 19 9).1.2
          < ((PixelGrid.new ⟨fun _ => 0, 600, 200⟩ 20 10).vp_rect 19 9).2.2
      ∧ ((PixelGrid.new ⟨fun _ => 0, 600, 200⟩ 20 10).vp_rect 19 9).2.1 < 600
      ∧ ((PixelGrid.new ⟨fun _ => 0, 600, 200⟩ 20 10).vp_rect 19 9).2.2 < 200) :=
  ⟨by omega,
    spec_C4 ⟨fun _ => 0, 600, 200⟩ 20 10 19 9 (show 2 * 20 ≤ 600 by omega)
      (show 2 * 10 ≤ 200 by omega) (by omega) (by omega)⟩

/-! ## Claims C5 and C10 -/

/-- **C5.** For every sprite id whose mapped region lies inside the sheet,
`sprite(id)` returns the sub-region `[cx*side, cx*side+side) × [cy*side,
cy*side+side)` of the sheet image, where the coordinates come from
`id_to_coords` (default `linear_translation : id ↦ (id, 0)`); in particular,
with `sprite_size = 8` and the default mapping, `sprite 1` extracts
`x ∈ [8, 15]`, `y ∈ [0, 7]` regardless of the sheet height beyond one row. -/
theorem spec_C5 (sheet : SpriteSheet) (id : ℕ)
    (hinW : ((sheet.id_to_coords id).1 + 1) * sheet.sprite_size - 1 < sheet.image.width)
    (hinH : ((sheet.id_to_coords id).2 + 1) * sheet.sprite_size - 1 < sheet.image.height) :
    ((sheet.sprite id).width = sheet.sprite_size
      ∧ (sheet.sprite id).height = sheet.sprite_size
      ∧ ∀ dx dy : ℕ, dx < sheet.sprite_size → dy < sheet.sprite_size →
          (sheet.sprite id).pixel dx dy
            = sheet.image.pixel ((sheet.id_to_coords id).1 * sheet.sprite_size + dx)
                ((sheet.id_to_coords id).2 * sheet.sprite_size + dy))
    ∧ (sheet.sprite_size = 8 → sheet.id_to_coords = linear_translation →
        ∀ dx dy : ℕ, dx < 8 → dy < 8 →
          (sheet.sprite 1).pixel dx dy = sheet.image.pixel (8 + dx) dy) := by
  constructor
  · exact ⟨rfl, rfl, fun dx dy _ _ => rfl⟩
  · intro h8 hlin dx dy _ _
    show sheet.image.pixel ((sheet.id_to_coords 1).1 * sheet.sprite_size + dx)
        ((sheet.id_to_coords 1).2 * sheet.sprite_size + dy) = _
    rw [hlin, h8]
    simp [linear_translation]

/-- Witness for C5: a 3×3 sprite sheet (24×24 pixels, `sprite_size = 8`) with
the default linear mapping, at `id = 1`. -/
theorem spec_C5_witness :
    ((((SpriteSheet.mk ⟨24, 24, fun x y => (x, y, 0)⟩ 8 linear_translation).id_to_coords 1).1 + 1)
          * 8 - 1 < 24
      ∧ (((SpriteSheet.mk ⟨24, 24, fun x y => (x, y, 0)⟩ 8 linear_translation).id_to_coords 1).2 + 1)
          * 8 - 1 < 24)
    ∧ ((((SpriteSheet.mk ⟨24, 24, fun x y => (x, y, 0)⟩ 8 linear_translation).sprite 1).width = 8
        ∧ ((SpriteSheet.mk ⟨24, 24, fun x y => (x, y, 0)⟩ 8 linear_translation).sprite 1).height = 8
        ∧ ∀ dx dy : ℕ, dx < 8 → dy < 8 →
            ((SpriteSheet.mk ⟨24, 24, fun x y => (x, y, 0)⟩ 8 linear_translation).sprite 1).pixel dx dy
              = (⟨24, 24, fun x y => (x, y, 0)⟩ : RgbImg).pixel
                  (((SpriteSheet.mk ⟨24, 24, fun x y => (x, y, 0)⟩ 8 linear_translation).id_to_coords 1).1 * 8 + dx)
                  (((SpriteSheet.mk ⟨24, 24, fun x y => (x, y, 0)⟩ 8 linear_translation).id_to_coords 1).2 * 8 + dy))
      ∧ ((8 : ℕ) = 8 → linear_translation = linear_translation →
          ∀ dx dy : ℕ, dx < 8 → dy < 8 →
            ((SpriteSheet.mk ⟨24, 24, fun x y => (x, y, 0)⟩ 8 linear_translation).sprite 1).pixel dx dy
              = (⟨24, 24, fun x y => (x, y, 0)⟩ : RgbImg).pixel (8 + dx) dy)) :=
  ⟨⟨by decide, by decide⟩,
    spec_C5 (SpriteSheet.mk ⟨24, 24, fun x y => (x, y, 0)⟩ 8 linear_translation) 1
      (by decide) (by decide)⟩

/-- **C10.** The code does not surface load/decode failures as a recoverable
error result: `SpriteSheet::new` (and hence `TileGrid::new`) panics via
`.expect`, with the distinct panic messages "error opening the image" (source
unreadable) and "error decoding the image" (source malformed).  In the model
`Except.error msg` marks the panic with message `msg`; the theorem evaluates
the constructors at failing inputs. -/
theorem spec_C10_panics :
    SpriteSheet.new (Except.error "unreadable") (fun _ => Except.ok ⟨0, 0, fun _ _ => (0, 0, 0)⟩) 8
        = Except.error "error opening the image"
    ∧ SpriteSheet.new (Except.ok 0) (fun _ => Except.error "malformed") 8
        = Except.error "error decoding the image"
    ∧ TileGrid.new ⟨fun _ => 0, 600, 200⟩ 20 10 8 (Except.error "unreadable")
        (fun _ => Except.ok ⟨0, 0, fun _ _ => (0, 0, 0)⟩)
        = Except.error "error opening the image" :=
  ⟨rfl, rfl, rfl⟩

/-! ## Frame and value lemmas transported along layout equality -/

theorem draw_image_frame_of_layout (pg g2 : PixelGrid) (hl : PixelGrid.sameLayout pg g2)
    (p : ℕ × ℕ) (image : RgbImg) (i : ℕ)
    (h : ∀ a : ℕ × ℕ, a.1 < image.width → a.2 < image.height →
      ¬ inRectIdx (pg.vp_rect (p.1 + a.1) (p.2 + a.2)) pg.bitmap.width i) :
    (g2.draw_image p image).bitmap.buffer i = g2.bitmap.buffer i := by
  apply PixelGrid.draw_image_frame
  intro a ha1 ha2
  rw [PixelGrid.vp_rect_congr hl.1 hl.2.1 hl.2.2.1, hl.2.2.2.1]
  exact h a ha1 ha2

theorem draw_image_value_of_layout (pg g2 : PixelGrid) (hl : PixelGrid.sameLayout pg g2)
    (p : ℕ × ℕ) (image : RgbImg) (a0 : ℕ × ℕ) (i : ℕ)
    (h1 : a0.1 < image.width) (h2 : a0.2 < image.height)
    (hT : inRectIdx (pg.vp_rect (p.1 + a0.1) (p.2 + a0.2)) pg.bitmap.width i)
    (huniq : ∀ a : ℕ × ℕ, a.1 < image.width → a.2 < image.height →
      inRectIdx (pg.vp_rect (p.1 + a.1) (p.2 + a.2)) pg.bitmap.width i → a = a0) :
    (g2.draw_image p image).bitmap.buffer i = imgColor image a0 := by
  apply PixelGrid.draw_image_value g2 p image a0 i h1 h2
  · rw [PixelGrid.vp_rect_congr hl.1 hl.2.1 hl.2.2.1, hl.2.2.2.1]
    exact hT
  · intro a ha1 ha2 hTa
    rw [PixelGrid.vp_rect_congr hl.1 hl.2.1 hl.2.2.1, hl.2.2.2.1] at hTa
    exact huniq a ha1 ha2 hTa

/-! ## Claim C6 -/

/-- **C6.** On a `TileGrid` built from a buffer at least as large as its
logical virtual-pixel grid (the spec's non-degeneracy invariant, which makes
the scale at least 1 so none of the rectangle subtractions can underflow, and
with `sprite_size = tile_size` as `TileGrid::new` sets it), every in-bounds
`draw_tile((tile_x, tile_y), sprite_id)` call leaves unchanged every buffer
pixel whose flat index lies outside all the rectangles that
`draw_virtual_pixel` computes for the virtual pixels of that one tile. -/
theorem spec_C6 (bm : Bitmap) (w h ts : ℕ) (sheet : SpriteSheet) (t : ℕ × ℕ)
    (sprite_id i : ℕ)
    (hss : sheet.sprite_size = ts) (hts : 0 < ts)
    (hW : w * ts ≤ bm.width) (hH : h * ts ≤ bm.height)
    (ht1 : t.1 < w) (ht2 : t.2 < h)
    (hout : ∀ dx dy : ℕ, dx < ts → dy < ts →
      ¬ inRectIdx ((PixelGrid.new bm (w * ts) (h * ts)).vp_rect (t.1 * ts + dx) (t.2 * ts + dy))
          bm.width i) :
    ((TileGrid.mk0 bm w h ts sheet).draw_tile t sprite_id).pixel_grid.bitmap.buffer i
      = (TileGrid.mk0 bm w h ts sheet).pixel_grid.bitmap.buffer i := by
  show ((PixelGrid.new bm (w * ts) (h * ts)).draw_image (t.1 * ts, t.2 * ts)
      (sheet.sprite sprite_id)).bitmap.buffer i
    = (PixelGrid.new bm (w * ts) (h * ts)).bitmap.buffer i
  apply PixelGrid.draw_image_frame
  intro a ha1 ha2
  refine hout a.1 a.2 ?_ ?_
  · rw [← hss]
    exact ha1
  · rw [← hss]
    exact ha2

theorem flr_two_mul (n : ℕ) : flr (2 : ℚ) n = 2 * n := by
  unfold flr
  have h : (2 : ℚ) * (n : ℚ) = ((2 * n : ℕ) : ℚ) := by push_cast; ring
  rw [h, Int.floor_natCast]
  omega

/-- Witness for C6: a 4×4 buffer, a 2×2 tile grid with 1-virtual-pixel tiles
(scale 2, no offset); tile `(0, 0)` covers exactly flat indices
`{0, 1, 4, 5}`, and index 2 is untouched. -/
theorem spec_C6_witness :
    ((⟨⟨2, 2, fun _ _ => (1, 2, 3)⟩, 1, linear_translation⟩ : SpriteSheet).sprite_size = 1
      ∧ (0 : ℕ) < 1 ∧ 2 * 1 ≤ 4 ∧ (0 : ℕ) < 2
      ∧ (∀ dx dy : ℕ, dx < 1 → dy < 1 →
          ¬ inRectIdx
              ((PixelGrid.new ⟨fun _ => 0, 4, 4⟩ 2 2).vp_rect (0 * 1 + dx) (0 * 1 + dy)) 4 2))
    ∧ ((TileGrid.mk0 ⟨fun _ => 0, 4, 4⟩ 2 2 1
          ⟨⟨2, 2, fun _ _ => (1, 2, 3)⟩, 1, linear_translation⟩).draw_tile (0, 0)
            0).pixel_grid.bitmap.buffer 2
      = (TileGrid.mk0 ⟨fun _ => 0, 4, 4⟩ 2 2 1
          ⟨⟨2, 2, fun _ _ => (1, 2, 3)⟩, 1, linear_translation⟩).pixel_grid.bitmap.buffer 2 := by
  have hrect : (PixelGrid.new ⟨fun _ => 0, 4, 4⟩ 2 2).vp_rect 0 0 = ((0, 0), (1, 1)) := by
    rcases PixelGrid.new_cases ⟨fun _ => 0, 4, 4⟩ 2 2 with
      ⟨hcl, hps, hpo, _⟩ | ⟨_, _, _, hr⟩
    · have hps2 : (PixelGrid.new ⟨fun _ => 0, 4, 4⟩ 2 2).pixel_size = 2 := by
        rw [hps]
        norm_num
      have hf0 : flr (PixelGrid.new ⟨fun _ => 0, 4, 4⟩ 2 2).pixel_size 0 = 0 := by
        rw [hps2, flr_two_mul]
      have hf1 : flr (PixelGrid.new ⟨fun _ => 0, 4, 4⟩ 2 2).pixel_size 1 = 2 := by
        rw [hps2, flr_two_mul]
      have hf2 : flr (PixelGrid.new ⟨fun _ => 0, 4, 4⟩ 2 2).pixel_size 2 = 4 := by
        rw [hps2, flr_two_mul]
      have hpo0 : (PixelGrid.new ⟨fun _ => 0, 4, 4⟩ 2 2).pixel_offset = 0 := by
        rw [hpo, hf2]
        rfl
      unfold PixelGrid.vp_rect
      rw [hcl]
      dsimp only
      rw [hf0, hf1, hpo0]
    · exfalso
      have hr2 : (4 : ℚ) / 2 < (4 : ℚ) / 2 := hr
      norm_num at hr2
  have hout : ∀ dx dy : ℕ, dx < 1 → dy < 1 →
      ¬ inRectIdx
          ((PixelGrid.new ⟨fun _ => 0, 4, 4⟩ 2 2).vp_rect (0 * 1 + dx) (0 * 1 + dy)) 4 2 := by
    intro dx dy hdx hdy
    have hdx0 : dx = 0 := by omega
    have hdy0 : dy = 0 := by omega
    subst hdx0
    subst hdy0
    show ¬ inRectIdx ((PixelGrid.new ⟨fun _ => 0, 4, 4⟩ 2 2).vp_rect 0 0) 4 2
    rw [hrect]
    decide
  exact ⟨⟨rfl, by omega, by omega, by omega, hout⟩,
    spec_C6 ⟨fun _ => 0, 4, 4⟩ 2 2 1 ⟨⟨2, 2, fun _ _ => (1, 2, 3)⟩, 1, linear_translation⟩
      (0, 0) 0 2 rfl (by decide) (by decide) (by decide) (by decide) (by decide) hout⟩

/-! ## Disjointness of the regions of virtual pixels addressed through tiles -/

theorem tile_cells_disjoint (bm : Bitmap) (w h ts : ℕ) (hts : 0 < ts)
    (hW : w * ts ≤ bm.width) (hH : h * ts ≤ bm.height)
    {t1 t2 : ℕ × ℕ} (ht11 : t1.1 < w) (ht12 : t1.2 < h) (ht21 : t2.1 < w) (ht22 : t2.2 < h)
    {a b : ℕ × ℕ} (ha1 : a.1 < ts) (ha2 : a.2 < ts) (hb1 : b.1 < ts) (hb2 : b.2 < ts)
    (hne : ¬ (t1 = t2 ∧ a = b)) {i : ℕ}
    (hA : inRectIdx
      ((PixelGrid.new bm (w * ts) (h * ts)).vp_rect (t1.1 * ts + a.1) (t1.2 * ts + a.2))
      bm.width i)
    (hB : inRectIdx
      ((PixelGrid.new bm (w * ts) (h * ts)).vp_rect (t2.1 * ts + b.1) (t2.2 * ts + b.2))
      bm.width i) : False := by
  have hw0 : 0 < w := by omega
  have hh0 : 0 < h := by omega
  have hcell : ∀ d tc c : ℕ, tc < d → c < ts → tc * ts + c < d * ts := by
    intro d tc c htc hc
    have h1 : (tc + 1) * ts ≤ d * ts := Nat.mul_le_mul_right ts (by omega)
    have h2 : (tc + 1) * ts = tc * ts + ts := by ring
    omega
  have hcells : ¬ (t1.1 * ts + a.1 = t2.1 * ts + b.1 ∧ t1.2 * ts + a.2 = t2.2 * ts + b.2) := by
    rintro ⟨e1, e2⟩
    apply hne
    have e1' : a.1 + t1.1 * ts = b.1 + t2.1 * ts := by
      calc a.1 + t1.1 * ts = t1.1 * ts + a.1 := Nat.add_comm _ _
        _ = t2.1 * ts + b.1 := e1
        _ = b.1 + t2.1 * ts := Nat.add_comm _ _
    have e2' : a.2 + t1.2 * ts = b.2 + t2.2 * ts := by
      calc a.2 + t1.2 * ts = t1.2 * ts + a.2 := Nat.add_comm _ _
        _ = t2.2 * ts + b.2 := e2
        _ = b.2 + t2.2 * ts := Nat.add_comm _ _
    obtain ⟨hab1, htt1⟩ := idx_inj ha1 hb1 e1'
    obtain ⟨hab2, htt2⟩ := idx_inj ha2 hb2 e2'
    exact ⟨Prod.ext_iff.mpr ⟨htt1, htt2⟩, Prod.ext_iff.mpr ⟨hab1, hab2⟩⟩
  exact PixelGrid.new_cells_disjoint bm (w * ts) (h * ts)
    (Nat.mul_pos hw0 hts) (Nat.mul_pos hh0 hts) hW hH
    (hcell w t1.1 a.1 ht11 ha1) (hcell h t1.2 a.2 ht12 ha2)
    (hcell w t2.1 b.1 ht21 hb1) (hcell h t2.2 b.2 ht22 hb2)
    hcells hA hB

/-! ## Claim C7 -/

/-- **C7.** On a `TileGrid` built from a buffer at least as large as its
logical virtual-pixel grid, for two distinct in-bounds tile coordinates the
target regions never overlap, so drawing the two tiles in either order leaves
the buffer in the same state. -/
theorem spec_C7 (bm : Bitmap) (w h ts : ℕ) (sheet : SpriteSheet) (t1 t2 : ℕ × ℕ) (s1 s2 : ℕ)
    (hss : sheet.sprite_size = ts) (hts : 0 < ts)
    (hW : w * ts ≤ bm.width) (hH : h * ts ≤ bm.height)
    (ht11 : t1.1 < w) (ht12 : t1.2 < h) (ht21 : t2.1 < w) (ht22 : t2.2 < h)
    (hne : t1 ≠ t2) :
    (((TileGrid.mk0 bm w h ts sheet).draw_tile t1 s1).draw_tile t2 s2).pixel_grid.bitmap.buffer
      = (((TileGrid.mk0 bm w h ts sheet).draw_tile t2 s2).draw_tile t1 s1).pixel_grid.bitmap.buffer := by
  funext i
  have hsw1 : (sheet.sprite s1).width = ts := hss
  have hsh1 : (sheet.sprite s1).height = ts := hss
  have hsw2 : (sheet.sprite s2).width = ts := hss
  have hsh2 : (sheet.sprite s2).height = ts := hss
  have hlay1 := PixelGrid.draw_image_layout (PixelGrid.new bm (w * ts) (h * ts))
    (t1.1 * ts, t1.2 * ts) (sheet.sprite s1)
  have hlay2 := PixelGrid.draw_image_layout (PixelGrid.new bm (w * ts) (h * ts))
    (t2.1 * ts, t2.2 * ts) (sheet.sprite s2)
  show (((PixelGrid.new bm (w * ts) (h * ts)).draw_image (t1.1 * ts, t1.2 * ts)
        (sheet.sprite s1)).draw_image (t2.1 * ts, t2.2 * ts) (sheet.sprite s2)).bitmap.buffer i
    = (((PixelGrid.new bm (w * ts) (h * ts)).draw_image (t2.1 * ts, t2.2 * ts)
        (sheet.sprite s2)).draw_image (t1.1 * ts, t1.2 * ts) (sheet.sprite s1)).bitmap.buffer i
  by_cases hA : ∃ a : ℕ × ℕ, a.1 < ts ∧ a.2 < ts ∧ inRectIdx
      ((PixelGrid.new bm (w * ts) (h * ts)).vp_rect (t1.1 * ts + a.1) (t1.2 * ts + a.2)) bm.width i
  · by_cases hB : ∃ b : ℕ × ℕ, b.1 < ts ∧ b.2 < ts ∧ inRectIdx
        ((PixelGrid.new bm (w * ts) (h * ts)).vp_rect (t2.1 * ts + b.1) (t2.2 * ts + b.2)) bm.width i
    · exfalso
      obtain ⟨a, ha1, ha2, hTa⟩ := hA
      obtain ⟨b, hb1, hb2, hTb⟩ := hB
      exact tile_cells_disjoint bm w h ts hts hW hH ht11 ht12 ht21 ht22 ha1 ha2 hb1 hb2
        (fun hq => hne hq.1) hTa hTb
    · obtain ⟨a0, ha01, ha02, hT0⟩ := hA
      push_neg at hB
      have huniq : ∀ a : ℕ × ℕ, a.1 < (sheet.sprite s1).width →
          a.2 < (sheet.sprite s1).height →
          inRectIdx ((PixelGrid.new bm (w * ts) (h * ts)).vp_rect
            ((t1.1 * ts, t1.2 * ts).1 + a.1) ((t1.1 * ts, t1.2 * ts).2 + a.2))
            (PixelGrid.new bm (w * ts) (h * ts)).bitmap.width i → a = a0 := by
        intro a ha1 ha2 hTa
        rw [hsw1] at ha1
        rw [hsh1] at ha2
        by_contra hne2
        exact tile_cells_disjoint bm w h ts hts hW hH ht11 ht12 ht11 ht12 ha1 ha2 ha01 ha02
          (fun hq => hne2 hq.2) hTa hT0
      have hfr2 : (((PixelGrid.new bm (w * ts) (h * ts)).draw_image (t1.1 * ts, t1.2 * ts)
            (sheet.sprite s1)).draw_image (t2.1 * ts, t2.2 * ts) (sheet.sprite s2)).bitmap.buffer i
          = (((PixelGrid.new bm (w * ts) (h * ts))).draw_image (t1.1 * ts, t1.2 * ts)
            (sheet.sprite s1)).bitmap.buffer i := by
        refine draw_image_frame_of_layout _ _ hlay1 _ _ _ ?_
        intro b hb1 hb2
        rw [hsw2] at hb1
        rw [hsh2] at hb2
        exact hB b hb1 hb2
      have hval1 : (((PixelGrid.new bm (w * ts) (h * ts))).draw_image (t1.1 * ts, t1.2 * ts)
            (sheet.sprite s1)).bitmap.buffer i = imgColor (sheet.sprite s1) a0 := by
        refine PixelGrid.draw_image_value _ _ _ a0 i ?_ ?_ hT0 huniq
        · rw [hsw1]
          exact ha01
        · rw [hsh1]
          exact ha02
      have hvalR : (((PixelGrid.new bm (w * ts) (h * ts)).draw_image (t2.1 * ts, t2.2 * ts)
            (sheet.sprite s2)).draw_image (t1.1 * ts, t1.2 * ts) (sheet.sprite s1)).bitmap.buffer i
          = imgColor (sheet.sprite s1) a0 := by
        refine draw_image_value_of_layout _ _ hlay2 _ _ a0 i ?_ ?_ hT0 huniq
        · rw [hsw1]
          exact ha01
        · rw [hsh1]
          exact ha02
      rw [hfr2, hval1, hvalR]
  · by_cases hB : ∃ b : ℕ × ℕ, b.1 < ts ∧ b.2 < ts ∧ inRectIdx
        ((PixelGrid.new bm (w * ts) (h * ts)).vp_rect (t2.1 * ts + b.1) (t2.2 * ts + b.2)) bm.width i
    · obtain ⟨b0, hb01, hb02, hT0⟩ := hB
      push_neg at hA
      have huniq : ∀ b : ℕ × ℕ, b.1 < (sheet.sprite s2).width →
          b.2 < (sheet.sprite s2).height →
          inRectIdx ((PixelGrid.new bm (w * ts) (h * ts)).vp_rect
            ((t2.1 * ts, t2.2 * ts).1 + b.1) ((t2.1 * ts, t2.2 * ts).2 + b.2))
            (PixelGrid.new bm (w * ts) (h * ts)).bitmap.width i → b = b0 := by
        intro b hb1 hb2 hTb
        rw [hsw2] at hb1
        rw [hsh2] at hb2
        by_contra hne2
        exact tile_cells_disjoint bm w h ts hts hW hH ht21 ht22 ht21 ht22 hb1 hb2 hb01 hb02
          (fun hq => hne2 hq.2) hTb hT0
      have hfr1 : (((PixelGrid.new bm (w * ts) (h * ts)).draw_image (t2.1 * ts, t2.2 * ts)
            (sheet.sprite s2)).draw_image (t1.1 * ts, t1.2 * ts) (sheet.sprite s1)).bitmap.buffer i
          = (((PixelGrid.new bm (w * ts) (h * ts))).draw_image (t2.1 * ts, t2.2 * ts)
            (sheet.sprite s2)).bitmap.buffer i := by
        refine draw_image_frame_of_layout _ _ hlay2 _ _ _ ?_
        intro a ha1 ha2
        rw [hsw1] at ha1
        rw [hsh1] at ha2
        exact hA a ha1 ha2
      have hval2 : (((PixelGrid.new bm (w * ts) (h * ts))).draw_image (t2.1 * ts, t2.2 * ts)
            (sheet.sprite s2)).bitmap.buffer i = imgColor (sheet.sprite s2) b0 := by
        refine PixelGrid.draw_image_value _ _ _ b0 i ?_ ?_ hT0 huniq
        · rw [hsw2]
          exact hb01
        · rw [hsh2]
          exact hb02
      have hvalL : (((PixelGrid.new bm (w * ts) (h * ts)).draw_image (t1.1 * ts, t1.2 * ts)
            (sheet.sprite s1)).draw_image (t2.1 * ts, t2.2 * ts) (sheet.sprite s2)).bitmap.buffer i
          = imgColor (sheet.sprite s2) b0 := by
        refine draw_image_value_of_layout _ _ hlay1 _ _ b0 i ?_ ?_ hT0 huniq
        · rw [hsw2]
          exact hb01
        · rw [hsh2]
          exact hb02
      rw [hvalL, hfr1, hval2]
    · push_neg at hA
      push_neg at hB
      have hfrA : ∀ g2 : PixelGrid,
          PixelGrid.sameLayout (PixelGrid.new bm (w * ts) (h * ts)) g2 →
          (g2.draw_image (t1.1 * ts, t1.2 * ts) (sheet.sprite s1)).bitmap.buffer i
            = g2.bitmap.buffer i := by
        intro g2 hl
        refine draw_image_frame_of_layout _ _ hl _ _ _ ?_
        intro a ha1 ha2
        rw [hsw1] at ha1
        rw [hsh1] at ha2
        exact hA a ha1 ha2
      have hfrB : ∀ g2 : PixelGrid,
          PixelGrid.sameLayout (PixelGrid.new bm (w * ts) (h * ts)) g2 →
          (g2.draw_image (t2.1 * ts, t2.2 * ts) (sheet.sprite s2)).bitmap.buffer i
            = g2.bitmap.buffer i := by
        intro g2 hl
        refine draw_image_frame_of_layout _ _ hl _ _ _ ?_
        intro b hb1 hb2
        rw [hsw2] at hb1
        rw [hsh2] at hb2
        exact hB b hb1 hb2
      rw [hfrB _ hlay1, hfrA _ (PixelGrid.sameLayout_refl _),
        hfrA _ hlay2, hfrB _ (PixelGrid.sameLayout_refl _)]

/-- Witness for C7: a 4×4 buffer, 2×2 tiles of one virtual pixel each, tiles
`(0,0)` and `(1,1)` drawn in both orders. -/
theorem spec_C7_witness :
    ((⟨⟨2, 2, fun _ _ => (1, 2, 3)⟩, 1, linear_translation⟩ : SpriteSheet).sprite_size = 1
      ∧ (0 : ℕ) < 1 ∧ 2 * 1 ≤ 4 ∧ (0 : ℕ) < 2 ∧ (1 : ℕ) < 2
      ∧ ((0, 0) : ℕ × ℕ) ≠ (1, 1))
    ∧ (((TileGrid.mk0 ⟨fun _ => 0, 4, 4⟩ 2 2 1
            ⟨⟨2, 2, fun _ _ => (1, 2, 3)⟩, 1, linear_translation⟩).draw_tile (0, 0)
              0).draw_tile (1, 1) 1).pixel_grid.bitmap.buffer
        = (((TileGrid.mk0 ⟨fun _ => 0, 4, 4⟩ 2 2 1
            ⟨⟨2, 2, fun _ _ => (1, 2, 3)⟩, 1, linear_translation⟩).draw_tile (1, 1)
              1).draw_tile (0, 0) 0).pixel_grid.bitmap.buffer :=
  ⟨⟨rfl, by omega, by omega, by omega, by omega, by decide⟩,
    spec_C7 ⟨fun _ => 0, 4, 4⟩ 2 2 1 ⟨⟨2, 2, fun _ _ => (1, 2, 3)⟩, 1, linear_translation⟩
      (0, 0) (1, 1) 0 1 rfl (by decide) (by decide) (by decide)
      (by decide) (by decide) (by decide) (by decide) (by decide)⟩

/-! ## Claim C8 -/

/-- **C8.** On a `TileGrid` built from a buffer at least as large as its
logical virtual-pixel grid, calling `draw_tile` twice with the same in-bounds
tile coordinates and sprite id leaves the buffer in a state identical to
calling it once. -/
theorem spec_C8 (bm : Bitmap) (w h ts : ℕ) (sheet : SpriteSheet) (t : ℕ × ℕ) (sid : ℕ)
    (hss : sheet.sprite_size = ts) (hts : 0 < ts)
    (hW : w * ts ≤ bm.width) (hH : h * ts ≤ bm.height)
    (ht1 : t.1 < w) (ht2 : t.2 < h) :
    (((TileGrid.mk0 bm w h ts sheet).draw_tile t sid).draw_tile t sid).pixel_grid.bitmap.buffer
      = ((TileGrid.mk0 bm w h ts sheet).draw_tile t sid).pixel_grid.bitmap.buffer := by
  funext i
  have hsw : (sheet.sprite sid).width = ts := hss
  have hsh : (sheet.sprite sid).height = ts := hss
  have hlay := PixelGrid.draw_image_layout (PixelGrid.new bm (w * ts) (h * ts))
    (t.1 * ts, t.2 * ts) (sheet.sprite sid)
  show (((PixelGrid.new bm (w * ts) (h * ts)).draw_image (t.1 * ts, t.2 * ts)
        (sheet.sprite sid)).draw_image (t.1 * ts, t.2 * ts) (sheet.sprite sid)).bitmap.buffer i
    = ((PixelGrid.new bm (w * ts) (h * ts)).draw_image (t.1 * ts, t.2 * ts)
        (sheet.sprite sid)).bitmap.buffer i
  by_cases hA : ∃ a : ℕ × ℕ, a.1 < ts ∧ a.2 < ts ∧ inRectIdx
      ((PixelGrid.new bm (w * ts) (h * ts)).vp_rect (t.1 * ts + a.1) (t.2 * ts + a.2)) bm.width i
  · obtain ⟨a0, ha01, ha02, hT0⟩ := hA
    have huniq : ∀ a : ℕ × ℕ, a.1 < (sheet.sprite sid).width →
        a.2 < (sheet.sprite sid).height →
        inRectIdx ((PixelGrid.new bm (w * ts) (h * ts)).vp_rect
          ((t.1 * ts, t.2 * ts).1 + a.1) ((t.1 * ts, t.2 * ts).2 + a.2))
          (PixelGrid.new bm (w * ts) (h * ts)).bitmap.width i → a = a0 := by
      intro a ha1 ha2 hTa
      rw [hsw] at ha1
      rw [hsh] at ha2
      by_contra hne2
      exact tile_cells_disjoint bm w h ts hts hW hH ht1 ht2 ht1 ht2 ha1 ha2 ha01 ha02
        (fun hq => hne2 hq.2) hTa hT0
    have h1 : ((PixelGrid.new bm (w * ts) (h * ts)).draw_image (t.1 * ts, t.2 * ts)
          (sheet.sprite sid)).bitmap.buffer i = imgColor (sheet.sprite sid) a0 := by
      refine PixelGrid.draw_image_value _ _ _ a0 i ?_ ?_ hT0 huniq
      · rw [hsw]
        exact ha01
      · rw [hsh]
        exact ha02
    have h2 : (((PixelGrid.new bm (w * ts) (h * ts)).draw_image (t.1 * ts, t.2 * ts)
          (sheet.sprite sid)).draw_image (t.1 * ts, t.2 * ts)
            (sheet.sprite sid)).bitmap.buffer i = imgColor (sheet.sprite sid) a0 := by
      refine draw_image_value_of_layout _ _ hlay _ _ a0 i ?_ ?_ hT0 huniq
      · rw [hsw]
        exact ha01
      · rw [hsh]
        exact ha02
    rw [h1, h2]
  · push_neg at hA
    refine draw_image_frame_of_layout _ _ hlay _ _ _ ?_
    intro a ha1 ha2
    rw [hsw] at ha1
    rw [hsh] at ha2
    exact hA a ha1 ha2

/-- Witness for C8: the 4×4 buffer with 2×2 one-pixel tiles, tile `(0, 0)`
drawn twice with sprite 0. -/
theorem spec_C8_witness :
    ((⟨⟨2, 2, fun _ _ => (1, 2, 3)⟩, 1, linear_translation⟩ : SpriteSheet).sprite_size = 1
      ∧ (0 : ℕ) < 1 ∧ 2 * 1 ≤ 4 ∧ (0 : ℕ) < 2)
    ∧ (((TileGrid.mk0 ⟨fun _ => 0, 4, 4⟩ 2 2 1
            ⟨⟨2, 2, fun _ _ => (1, 2, 3)⟩, 1, linear_translation⟩).draw_tile (0, 0)
              0).draw_tile (0, 0) 0).pixel_grid.bitmap.buffer
        = ((TileGrid.mk0 ⟨fun _ => 0, 4, 4⟩ 2 2 1
            ⟨⟨2, 2, fun _ _ => (1, 2, 3)⟩, 1, linear_translation⟩).draw_tile (0, 0)
              0).pixel_grid.bitmap.buffer :=
  ⟨⟨rfl, by omega, by omega, by omega⟩,
    spec_C8 ⟨fun _ => 0, 4, 4⟩ 2 2 1 ⟨⟨2, 2, fun _ _ => (1, 2, 3)⟩, 1, linear_translation⟩
      (0, 0) 0 rfl (by decide) (by decide) (by decide) (by decide) (by decide)⟩

/-! ## Claim C9 -/

/-- **C9.** `draw_image` writes a sprite pixel with RGB components
`(r, g, b)` into the buffer as `u32::from_be_bytes([0, r, g, b])`, i.e. the
value `r * 2^16 + g * 2^8 + b` (`0x00RRGGBB`): blue is the lowest byte, green
the second, red the third, and the top byte is zero.  The witness buffer value
is read back at the top-left corner of the virtual pixel that cell
`(dx0, dy0)` maps to. -/
theorem spec_C9 (bm : Bitmap) (Lw Lh : ℕ) (p : ℕ × ℕ) (img : RgbImg) (dx0 dy0 : ℕ)
    (hLW : Lw ≤ bm.width) (hLH : Lh ≤ bm.height)
    (hpW : p.1 + img.width ≤ Lw) (hpH : p.2 + img.height ≤ Lh)
    (hdx : dx0 < img.width) (hdy : dy0 < img.height)
    (hr : (img.pixel dx0 dy0).1 < 256) (hg : (img.pixel dx0 dy0).2.1 < 256)
    (hb : (img.pixel dx0 dy0).2.2 < 256) :
    ∃ v : ℕ,
      ((PixelGrid.new bm Lw Lh).draw_image p img).bitmap.buffer
          (((PixelGrid.new bm Lw Lh).vp_rect (p.1 + dx0) (p.2 + dy0)).1.1
            + ((PixelGrid.new bm Lw Lh).vp_rect (p.1 + dx0) (p.2 + dy0)).1.2 * bm.width) = v
      ∧ v = (img.pixel dx0 dy0).1 * 65536 + (img.pixel dx0 dy0).2.1 * 256
          + (img.pixel dx0 dy0).2.2
      ∧ v % 256 = (img.pixel dx0 dy0).2.2
      ∧ v / 256 % 256 = (img.pixel dx0 dy0).2.1
      ∧ v / 65536 % 256 = (img.pixel dx0 dy0).1
      ∧ v / 16777216 = 0 := by
  have hLw0 : 0 < Lw := by omega
  have hLh0 : 0 < Lh := by omega
  obtain ⟨offX, offY, hshape, hs1, hsW, hsH, hoX, hoY⟩ :=
    PixelGrid.new_struct bm Lw Lh 1 hLw0 hLh0 (by omega) (by omega)
  have hgx := flr_succ_ge (PixelGrid.new bm Lw Lh).pixel_size 1 (by exact_mod_cast hs1) (p.1 + dx0)
  have hgy := flr_succ_ge (PixelGrid.new bm Lw Lh).pixel_size 1 (by exact_mod_cast hs1) (p.2 + dy0)
  have hT : inRectIdx ((PixelGrid.new bm Lw Lh).vp_rect (p.1 + dx0) (p.2 + dy0)) bm.width
      (((PixelGrid.new bm Lw Lh).vp_rect (p.1 + dx0) (p.2 + dy0)).1.1
        + ((PixelGrid.new bm Lw Lh).vp_rect (p.1 + dx0) (p.2 + dy0)).1.2 * bm.width) := by
    rw [inRectIdx_iff]
    refine ⟨(((PixelGrid.new bm Lw Lh).vp_rect (p.1 + dx0) (p.2 + dy0)).1.1,
      ((PixelGrid.new bm Lw Lh).vp_rect (p.1 + dx0) (p.2 + dy0)).1.2), ⟨⟨le_rfl, ?_⟩, le_rfl, ?_⟩, rfl⟩
    · rw [hshape (p.1 + dx0) (p.2 + dy0)]
      dsimp only
      omega
    · rw [hshape (p.1 + dx0) (p.2 + dy0)]
      dsimp only
      omega
  have huniq : ∀ a : ℕ × ℕ, a.1 < img.width → a.2 < img.height →
      inRectIdx ((PixelGrid.new bm Lw Lh).vp_rect (p.1 + a.1) (p.2 + a.2))
        (PixelGrid.new bm Lw Lh).bitmap.width
        (((PixelGrid.new bm Lw Lh).vp_rect (p.1 + dx0) (p.2 + dy0)).1.1
          + ((PixelGrid.new bm Lw Lh).vp_rect (p.1 + dx0) (p.2 + dy0)).1.2 * bm.width)
      → a = (dx0, dy0) := by
    intro a ha1 ha2 hTa
    by_contra hne2
    refine PixelGrid.new_cells_disjoint bm Lw Lh hLw0 hLh0 hLW hLH
      (by omega) (by omega) (by omega) (by omega) ?_ hTa hT
    rintro ⟨e1, e2⟩
    exact hne2 (Prod.ext_iff.mpr ⟨by omega, by omega⟩)
  have hval := PixelGrid.draw_image_value (PixelGrid.new bm Lw Lh) p img (dx0, dy0)
    (((PixelGrid.new bm Lw Lh).vp_rect (p.1 + dx0) (p.2 + dy0)).1.1
      + ((PixelGrid.new bm Lw Lh).vp_rect (p.1 + dx0) (p.2 + dy0)).1.2 * bm.width)
    hdx hdy hT huniq
  refine ⟨imgColor img (dx0, dy0), hval, ?_, ?_, ?_, ?_, ?_⟩ <;>
  · unfold imgColor u32FromBeBytes
    dsimp only
    omega

/-- Witness for C9: a 4×4 buffer, 2×2 logical grid, a 2×2 image whose pixels
are all `(10, 20, 30)`, cell `(0, 0)`. -/
theorem spec_C9_witness :
    (2 ≤ 4 ∧ (0 : ℕ) + 2 ≤ 2 ∧ (0 : ℕ) < 2 ∧ (10 : ℕ) < 256 ∧ (20 : ℕ) < 256 ∧ (30 : ℕ) < 256)
    ∧ ∃ v : ℕ,
      ((PixelGrid.new ⟨fun _ => 0, 4, 4⟩ 2 2).draw_image (0, 0)
          ⟨2, 2, fun _ _ => (10, 20, 30)⟩).bitmap.buffer
          (((PixelGrid.new ⟨fun _ => 0, 4, 4⟩ 2 2).vp_rect ((0 : ℕ) + 0) ((0 : ℕ) + 0)).1.1
            + ((PixelGrid.new ⟨fun _ => 0, 4, 4⟩ 2 2).vp_rect ((0 : ℕ) + 0) ((0 : ℕ) + 0)).1.2
              * (⟨fun _ => 0, 4, 4⟩ : Bitmap).width) = v
      ∧ v = ((⟨2, 2, fun _ _ => (10, 20, 30)⟩ : RgbImg).pixel 0 0).1 * 65536
          + ((⟨2, 2, fun _ _ => (10, 20, 30)⟩ : RgbImg).pixel 0 0).2.1 * 256
          + ((⟨2, 2, fun _ _ => (10, 20, 30)⟩ : RgbImg).pixel 0 0).2.2
      ∧ v % 256 = ((⟨2, 2, fun _ _ => (10, 20, 30)⟩ : RgbImg).pixel 0 0).2.2
      ∧ v / 256 % 256 = ((⟨2, 2, fun _ _ => (10, 20, 30)⟩ : RgbImg).pixel 0 0).2.1
      ∧ v / 65536 % 256 = ((⟨2, 2, fun _ _ => (10, 20, 30)⟩ : RgbImg).pixel 0 0).1
      ∧ v / 16777216 = 0 :=
  ⟨⟨by omega, by omega, by omega, by omega, by omega, by omega⟩,
    spec_C9 ⟨fun _ => 0, 4, 4⟩ 2 2 (0, 0) ⟨2, 2, fun _ _ => (10, 20, 30)⟩ 0 0
      (by decide) (by decide) (by decide) (by decide) (by decide) (by decide)
      (by decide) (by decide) (by decide)⟩
